import Mathlib

/-!
Shallow embedding of the deposit-ledger HTTP server of this repository
(the single server source file).  The server keeps an in-memory aggregate
deposit series (chartData), per-contributor series with per-entry
metadata (userData), an administrative audit log (logs), monthly
snapshots (monthlyHistory), a team roster (teamData) and a credentials
store (credentials).

Modelling conventions, each noted again at the definition it concerns:
- JavaScript objects used as string-keyed maps are modelled as
  insertion-ordered association lists with unique keys: assignment to an
  existing key replaces its value in place, assignment to a fresh key
  appends, delete removes the key.  This matches JavaScript property
  order for non-numeric string keys.
- JavaScript numbers are modelled by an inductive type with NaN, the two
  infinities, null (the JSON serialization image of a non-finite number)
  and exact rationals.  No claim verified below depends on
  floating-point rounding, so finite arithmetic is exact.
- Query parameters that may be absent are modelled as the empty string
  when the handler only tests them for truthiness (absent and the empty
  string are both falsy in JavaScript), and as Option when the handler
  distinguishes undefined from a present empty value.
- Timestamps produced by reading the clock (Date in the source) are
  external inputs and are passed as explicit string parameters.
- A handler that throws (uncaught TypeError) or responds with an error
  status is modelled as Except.error; the caller keeps the previous
  state in that case.  In the real server an uncaught TypeError kills
  the process, so no state after it is observable.
-/

/-- JavaScript number as far as this program observes it: NaN, the two
infinities, null (what JSON.stringify turns a non-finite number into)
and finite values.  Finite values are modelled as exact rationals since
no verified claim depends on floating-point rounding. -/
inductive JSNum where
  | nan : JSNum
  | inf : JSNum
  | negInf : JSNum
  | jnull : JSNum
  | fin : ℚ → JSNum
deriving DecidableEq, Repr

/-- The isNaN test of the source's add handler: true exactly on NaN. -/
def isNaNb : JSNum → Bool
  | .nan => true
  | _ => false

/-- A value is a finite number: neither NaN, an infinity, nor null. -/
def isFiniteNum : JSNum → Bool
  | .fin _ => true
  | _ => false

/-- Image of a number under a JSON round trip
(JSON.parse of JSON.stringify): finite values and null survive, NaN and
the infinities serialize to null. -/
def jsonNum : JSNum → JSNum
  | .fin q => .fin q
  | _ => .jnull

/-- JavaScript addition as used by the reduce in the participants
handler.  NaN propagates, opposite infinities give NaN, null coerces to
zero, finite addition is modelled exactly. -/
def jsAdd : JSNum → JSNum → JSNum
  | .nan, _ => .nan
  | _, .nan => .nan
  | .inf, .negInf => .nan
  | .negInf, .inf => .nan
  | .inf, _ => .inf
  | _, .inf => .inf
  | .negInf, _ => .negInf
  | _, .negInf => .negInf
  | .jnull, .jnull => .fin 0
  | .jnull, .fin q => .fin q
  | .fin q, .jnull => .fin q
  | .fin a, .fin b => .fin (a + b)

/-- Whitespace as matched by the regular expression class backslash-s,
restricted to its ASCII members, which cover every string this
development evaluates. -/
def isJsWS (c : Char) : Bool :=
  c == ' ' || c == '\t' || c == '\n' || c == '\r' || c == '\x0b' || c == '\x0c'

/-- Combining diacritical marks, the Unicode block 0300 to 036f removed
by the sanitizing regular expressions of the source. -/
def isCombining (c : Char) : Bool :=
  0x300 ≤ c.toNat && c.toNat ≤ 0x36f

/-- Word characters as matched by the regular expression class
backslash-w: ASCII letters, digits and the underscore. -/
def isWordChar (c : Char) : Bool :=
  c.isAlpha || c.isDigit || c == '_'

/-- Unicode NFD normalization (String.prototype.normalize in the
source).  NFD only rewrites precomposed characters into a base character
followed by combining marks; on strings free of precomposed characters —
every string evaluated in this development is ASCII — it is the
identity, and it is modelled as such. -/
def nfd (s : String) : String := s

/-- toLowerCase of the source, modelled for ASCII letters. -/
def jsToLower (s : String) : String := String.mk (s.toList.map Char.toLower)

/-- Replacing every run of whitespace by the empty string, i.e. removing
all whitespace characters. -/
def removeWS (s : String) : String := String.mk (s.toList.filter (fun c => !isJsWS c))

/-- Removing every combining diacritical mark. -/
def stripCombining (s : String) : String := String.mk (s.toList.filter (fun c => !isCombining c))

/-- Keeping only word characters, i.e. replacing every non-word
character by the empty string. -/
def keepWordChars (s : String) : String := String.mk (s.toList.filter isWordChar)

/-- Helper for collapsing each maximal run of whitespace into a single
underscore; the Boolean records whether the previous character was
whitespace. -/
def wsCollapse : Bool → List Char → List Char
  | _, [] => []
  | prevWs, c :: cs =>
    if isJsWS c then (if prevWs then [] else ['_']) ++ wsCollapse true cs
    else c :: wsCollapse false cs

/-- Replacing every run of whitespace by a single underscore. -/
def wsToUnderscore (s : String) : String := String.mk (wsCollapse false s.toList)

/-- Removing every letter h, as done by the login handler on
already-lowercased names. -/
def dropH (s : String) : String := String.mk (s.toList.filter (fun c => !(c == 'h')))

/-- The sanitizeName utility: NFD normalize, strip combining marks,
turn whitespace runs into underscores, drop non-word characters,
lowercase.  Used to derive participant identifiers. -/
def sanitizeName (name : String) : String :=
  jsToLower (keepWordChars (wsToUnderscore (stripCombining (nfd name))))

/-- Identifier derivation of the team-create handler: NFD normalize,
strip combining marks, remove whitespace, lowercase. -/
def deriveTeamId (name : String) : String :=
  jsToLower (removeWS (stripCombining (nfd name)))

/-- Name normalization of the login and register handlers: NFD
normalize, remove whitespace, lowercase.  Note that combining marks are
not stripped here. -/
def normLogin (name : String) : String := jsToLower (removeWS (nfd name))

/-- One per-deposit metadata record of a contributor: its timestamp, its
value and the index of this deposit inside the aggregate series.  The
recorded index is chartData.values.length - 1 right after a push, hence
a natural number. -/
structure Entry where
  time : String
  value : JSNum
  totalIndex : Nat
deriving DecidableEq, Repr

/-- A contributor's record in userData.  The entries field is an Option:
none models a JavaScript record on which the entries property is absent,
which is how the restore and rename handlers rebuild records. -/
structure UserRec where
  labels : List String
  values : List JSNum
  entries : Option (List Entry)
deriving DecidableEq, Repr

/-- The aggregate series chartData: parallel lists of timestamp labels
and deposit values. -/
structure ChartData where
  labels : List String
  values : List JSNum
deriving DecidableEq, Repr

/-- One team roster member. -/
structure Member where
  id : String
  name : String
  description : String
deriving DecidableEq, Repr

/-- One audit log record.  The details payload of the source is never
inspected by any verified claim and is omitted. -/
structure LogEntry where
  timestamp : String
  admin : String
  action : String
deriving DecidableEq, Repr

/-- One monthly snapshot pushed by the reset handler. -/
structure Snapshot where
  month : String
  chart : ChartData
  users : List (String × UserRec)
  team : List Member
deriving DecidableEq, Repr

/-- One stored credential. -/
structure Credential where
  name : String
  password : String
  isMaster : Bool
deriving DecidableEq, Repr

/-- The whole mutable server state relevant to the verified claims.
userData is a JavaScript object keyed by contributor name, modelled as
an insertion-ordered association list with unique keys. -/
structure ServerState where
  chartData : ChartData
  userData : List (String × UserRec)
  logs : List LogEntry
  monthlyHistory : List Snapshot
  currentMonth : String
  teamData : List Member
deriving DecidableEq, Repr

/-- Property read on a JavaScript object: the value at the first (and,
with unique keys, only) occurrence of the key. -/
def objGet {α : Type} : List (String × α) → String → Option α
  | [], _ => none
  | p :: rest, k => if p.1 = k then some p.2 else objGet rest k

/-- Property assignment on a JavaScript object: replace the value in
place if the key exists, otherwise append the new key at the end. -/
def objSet {α : Type} : List (String × α) → String → α → List (String × α)
  | [], k, v => [(k, v)]
  | p :: rest, k, v => if p.1 = k then (k, v) :: rest else p :: objSet rest k v

/-- Property deletion on a JavaScript object. -/
def objDelete {α : Type} : List (String × α) → String → List (String × α)
  | [], _ => []
  | p :: rest, k => if p.1 = k then objDelete rest k else p :: objDelete rest k

/-- The addLog helper of the source: appends a record whose admin field
falls back to the string unknown when the actor is falsy (absent actors
are modelled as the empty string). -/
def addLog (logs : List LogEntry) (ts adminName action : String) : List LogEntry :=
  logs ++ [⟨ts, if adminName = "" then "unknown" else adminName, action⟩]

deriving instance DecidableEq for Except

/-- Error outcomes of the handlers, one constructor per distinct
response class, plus typeError for an uncaught JavaScript TypeError. -/
inductive JsError where
  | badRequest
  | invalidAmount
  | invalidIndex
  | notFound
  | permissionDenied
  | duplicateKey
  | unauthorized
  | typeError
deriving DecidableEq, Repr

/-- The add handler (route /add/:value), from the point where the value
string has been parsed into a number; parseFloat returns NaN on
non-numeric input and the infinities on the strings Infinity and
-Infinity.  The handler rejects only NaN.  On success it pushes the
label and amount onto the aggregate series and, when a contributor name
is given, onto that contributor's record, recording entries metadata
with the new aggregate index.  A contributor record that exists but has
no entries property (as rebuilt by restore or rename) makes the push on
entries throw a TypeError; the source pushes onto the aggregate before
throwing and then the process dies, so the model discards the partial
mutation and returns the error. -/
def appendDeposit (s : ServerState) (amount : JSNum) (label userName adminName ts : String) :
    Except JsError ServerState :=
  if isNaNb amount then .error .invalidAmount
  else
    let chart2 : ChartData := ⟨s.chartData.labels ++ [label], s.chartData.values ++ [amount]⟩
    let totalIndex := s.chartData.values.length
    let logs2 := addLog s.logs ts adminName "deposit"
    if userName = "" then
      .ok { s with chartData := chart2, logs := logs2 }
    else
      match objGet s.userData userName with
      | none =>
          let r0 : UserRec := ⟨[label], [amount], some [⟨label, amount, totalIndex⟩]⟩
          .ok { s with chartData := chart2, userData := objSet s.userData userName r0,
                       logs := logs2 }
      | some r =>
          match r.entries with
          | none => .error .typeError
          | some es =>
              let r2 : UserRec := ⟨r.labels ++ [label], r.values ++ [amount],
                                   some (es ++ [⟨label, amount, totalIndex⟩])⟩
              .ok { s with chartData := chart2, userData := objSet s.userData userName r2,
                           logs := logs2 }

/-- The participants handler output for one contributor. -/
structure Participant where
  id : String
  name : String
  count : Nat
  total : JSNum
deriving DecidableEq, Repr

/-- The participants handler (route /participants): every contributor
with its sanitized identifier, deposit count and freshly computed value
total. -/
def listContributors (s : ServerState) : List Participant :=
  s.userData.map (fun p =>
    ⟨sanitizeName p.1, p.1, p.2.values.length, p.2.values.foldl jsAdd (.fin 0)⟩)

/-- The entries handler (route /entries): the per-contributor entries
with their indices, or notFound when the contributor is absent or its
record has no entries property. -/
def listEntries (s : ServerState) (userName : String) :
    Except JsError (List (Nat × String × JSNum)) :=
  if userName = "" then .error .badRequest
  else
    match objGet s.userData userName with
    | none => .error .notFound
    | some d =>
      match d.entries with
      | none => .error .notFound
      | some es => .ok (es.enum.map (fun p => (p.1, p.2.time, p.2.value)))

/-- The entry edit handler (route /entry, PUT), from the point where the
index parameter has been parsed into an integer.  Missing contributor or
time give a bad request; an absent contributor, an absent entries
property or an out-of-range index give notFound.  Otherwise the entry's
time, the contributor label at the same index (guarded by the source on
the label being present and truthy) and the aggregate label at the
entry's recorded aggregate index (guarded on being in range; the
recorded index is a natural number so the source's lower-bound test is
vacuous) are set to the new time. -/
def editEntryTime (s : ServerState) (userName : String) (idx : Int)
    (newTime adminName ts : String) : Except JsError ServerState :=
  if userName = "" ∨ newTime = "" then .error .badRequest
  else
    match objGet s.userData userName with
    | none => .error .notFound
    | some d =>
      match d.entries with
      | none => .error .notFound
      | some es =>
        if idx < 0 then .error .notFound
        else if hlt : idx.toNat < es.length then
          let i := idx.toNat
          let e := es.get ⟨i, hlt⟩
          let labels2 := if d.labels.getD i "" = "" then d.labels else d.labels.set i newTime
          let es2 := es.set i ⟨newTime, e.value, e.totalIndex⟩
          let aggLabels2 :=
            if e.totalIndex < s.chartData.labels.length
            then s.chartData.labels.set e.totalIndex newTime
            else s.chartData.labels
          .ok { s with
                userData := objSet s.userData userName ⟨labels2, d.values, some es2⟩,
                chartData := ⟨aggLabels2, s.chartData.values⟩,
                logs := addLog s.logs ts adminName "editEntryTime" }
        else .error .notFound

/-- Key resolution shared by the participant delete and rename handlers:
the first stored contributor whose sanitized name equals the requested
identifier, together with its record. -/
def findUserByIdKey (m : List (String × UserRec)) (id : String) : Option (String × UserRec) :=
  m.find? (fun p => sanitizeName p.1 == id)

/-- The participant delete handler (route /users/:id, DELETE): resolves
the identifier to the first matching stored key and deletes that key;
the aggregate series is not touched. -/
def deleteContributor (s : ServerState) (id adminName ts : String) :
    Except JsError ServerState :=
  match findUserByIdKey s.userData id with
  | none => .error .notFound
  | some (key, _) =>
      .ok { s with userData := objDelete s.userData key,
                   logs := addLog s.logs ts adminName "userDelete" }

/-- The participant rename handler (route /users/:id, PUT): resolves the
identifier to the first matching stored key, deletes that key and
assigns a record holding copies of its labels and values — without the
entries property — to the new name.  There is no duplicate check: when
the new name is already a stored key, the assignment overwrites that
contributor's record in place. -/
def renameContributor (s : ServerState) (id newName adminName ts : String) :
    Except JsError ServerState :=
  if newName = "" then .error .badRequest
  else
    match findUserByIdKey s.userData id with
    | none => .error .notFound
    | some (key, d) =>
        let m1 := objDelete s.userData key
        .ok { s with userData := objSet m1 newName ⟨d.labels, d.values, none⟩,
                     logs := addLog s.logs ts adminName "userRename" }

/-- The reset handler (route /reset-month, POST): pushes a snapshot of
the current month, the aggregate series (copied by spread, hence exact),
the contributor records (copied through a JSON round trip, which turns
non-finite stored values into null and preserves presence or absence of
the entries property) and the roster; then clears the aggregate series
and all contributor records and moves to the new month read from the
clock.  Returns the new state and the closed month identifier. -/
def jsonEntryCopy (e : Entry) : Entry := ⟨e.time, jsonNum e.value, e.totalIndex⟩

/-- JSON round-trip image of one contributor record, used by the reset
handler's deep copy. -/
def jsonUser (r : UserRec) : UserRec :=
  ⟨r.labels, r.values.map jsonNum, Option.map (List.map jsonEntryCopy) r.entries⟩

def resetMonth (s : ServerState) (adminName ts newMonth : String) : ServerState × String :=
  let snap : Snapshot := ⟨s.currentMonth, s.chartData,
                          s.userData.map (fun p => (p.1, jsonUser p.2)), s.teamData⟩
  ({ s with chartData := ⟨[], []⟩,
            userData := [],
            monthlyHistory := s.monthlyHistory ++ [snap],
            currentMonth := newMonth,
            logs := addLog s.logs ts adminName "resetMonth" },
   s.currentMonth)

/-- The restore handler (route /restore-month, POST): finds the first
snapshot whose month matches, replaces the aggregate series with a copy
of the snapshot's, rebuilds every contributor record from the snapshot
with labels and values only — the entries property is not recreated —
and restores the roster and current month.  The history list itself is
untouched. -/
def restoreMonth (s : ServerState) (month adminName ts : String) :
    Except JsError ServerState :=
  if month = "" then .error .badRequest
  else
    match s.monthlyHistory.find? (fun h => h.month == month) with
    | none => .error .notFound
    | some snap =>
        .ok { s with
              chartData := snap.chart,
              userData := snap.users.map (fun p => (p.1, ⟨p.2.labels, p.2.values, none⟩)),
              teamData := snap.team,
              currentMonth := snap.month,
              logs := addLog s.logs ts adminName "restoreMonth" }

/-- The log clear handler (route /logs, DELETE): permission denied
unless the actor is present and lowercases to the master name esther;
otherwise the log is emptied and the clear action itself is recorded,
leaving exactly one record. -/
def clearLogs (s : ServerState) (adminName ts : String) : Except JsError ServerState :=
  if adminName = "" ∨ jsToLower adminName ≠ "esther" then .error .permissionDenied
  else .ok { s with logs := addLog [] ts adminName "clearLogs" }

/-- The credentials the server initializes when no credentials file
exists: the single master account. -/
def defaultCredentials : List Credential := [⟨"Esther", "1705", true⟩]

/-- The distinguished master account name: the name of the first stored
credential flagged isMaster. -/
def masterName (creds : List Credential) : Option String :=
  (creds.find? (fun c => c.isMaster)).map (fun c => c.name)

/-- The login handler's name rule: the normalized supplied name equals
the normalized credential name, or the two are equal after dropping
every letter h from both. -/
def credMatches (name : String) (c : Credential) : Bool :=
  normLogin name == normLogin c.name ||
    dropH (normLogin name) == dropH (normLogin c.name)

/-- The credential scan of the login handler: the loop walks the stored
credentials in order and stops at the first one matching the name
rule. -/
def findCred (name : String) : List Credential → Option Credential
  | [] => none
  | c :: rest => if credMatches name c then some c else findCred name rest

/-- The login handler: bad request on missing name or password,
otherwise the first credential matching the name rule must exist and
carry exactly the supplied password; the matched credential is returned
on success. -/
def handleLogin (creds : List Credential) (name password : String) :
    Except JsError Credential :=
  if name = "" ∨ password = "" then .error .badRequest
  else
    match findCred name creds with
    | none => .error .unauthorized
    | some c => if c.password = password then .ok c else .error .unauthorized

/-- The register handler: bad request on missing name or password,
conflict when some stored credential has the same normalized name
(no h-dropping here), otherwise the new non-master credential is
appended. -/
def handleRegister (creds : List Credential) (name password : String) :
    Except JsError (List Credential) :=
  if name = "" ∨ password = "" then .error .badRequest
  else if creds.any (fun c => normLogin c.name == normLogin name) then .error .duplicateKey
  else .ok (creds ++ [⟨name, password, false⟩])

/-- The team create handler (route /team, POST): requires a name,
derives the identifier from it, rejects a duplicate identifier, and
appends the new member. -/
def teamCreate (s : ServerState) (name desc adminName ts : String) :
    Except JsError ServerState :=
  if name = "" then .error .badRequest
  else
    let id := deriveTeamId name
    if s.teamData.any (fun m => m.id == id) then .error .duplicateKey
    else .ok { s with teamData := s.teamData ++ [⟨id, name, desc⟩],
                      logs := addLog s.logs ts adminName "teamCreate" }

/-- In-place update of the first member with the given identifier, as
done by findIndex followed by field assignments: a truthy new name
replaces the name, a present description parameter (Option some, even
when empty) replaces the description; the identifier is never
re-derived. -/
def updateMemberFirst (id name : String) (desc : Option String) :
    List Member → Option (List Member)
  | [] => none
  | m :: rest =>
    if m.id = id then
      some (⟨m.id, if name = "" then m.name else name,
             match desc with | none => m.description | some d2 => d2⟩ :: rest)
    else
      match updateMemberFirst id name desc rest with
      | none => none
      | some rest2 => some (m :: rest2)

/-- The team update handler (route /team/:id, PUT). -/
def teamUpdate (s : ServerState) (id name : String) (desc : Option String)
    (adminName ts : String) : Except JsError ServerState :=
  match updateMemberFirst id name desc s.teamData with
  | none => .error .notFound
  | some team2 =>
      .ok { s with teamData := team2, logs := addLog s.logs ts adminName "teamUpdate" }

/-- Removal of the first member with the given identifier, as done by
findIndex followed by splice. -/
def removeMemberFirst (id : String) : List Member → Option (Member × List Member)
  | [] => none
  | m :: rest =>
    if m.id = id then some (m, rest)
    else
      match removeMemberFirst id rest with
      | none => none
      | some (r, rest2) => some (r, m :: rest2)

/-- The team delete handler (route /team/:id, DELETE). -/
def teamDelete (s : ServerState) (id adminName ts : String) : Except JsError ServerState :=
  match removeMemberFirst id s.teamData with
  | none => .error .notFound
  | some (_, team2) =>
      .ok { s with teamData := team2, logs := addLog s.logs ts adminName "teamDelete" }

/-- The roster the source initializes at startup. -/
def initialTeam : List Member :=
  [⟨"esther", "Esther",
    "Líder principal responsável pelas decisões estratégicas e comunicação oficial."⟩,
   ⟨"evelyn", "Evelyn",
    "Gestora financeira, cuida da organização e do controle de valores."⟩,
   ⟨"lia", "Lia",
    "Assistente analítica responsável por análises, gráficos e resumos."⟩]

/-- The server state at startup; the current month is a clock read at
process start, fixed here to a concrete value. -/
def initialServerState : ServerState :=
  { chartData := ⟨[], []⟩,
    userData := [],
    logs := [],
    monthlyHistory := [],
    currentMonth := "2026-10",
    teamData := initialTeam }

/-- The mutations that the snapshot round-trip claim allows between a
close and a restore: deposits, entry-time edits, renames and deletes. -/
inductive MutOp where
  | append (amount : JSNum) (label user admin : String)
  | edit (user : String) (idx : Int) (newTime admin : String)
  | rename (id newName admin : String)
  | delete (id admin : String)

/-- Keep the previous state when a handler reports an error: the router
answers the request with the error and the stored state is unchanged. -/
def orKeep (s : ServerState) : Except JsError ServerState → ServerState
  | .ok s2 => s2
  | .error _ => s

/-- One mutation step against the live state. -/
def applyMut (s : ServerState) (ts : String) : MutOp → ServerState
  | .append a l u adm => orKeep s (appendDeposit s a l u adm ts)
  | .edit u i t adm => orKeep s (editEntryTime s u i t adm ts)
  | .rename id n adm => orKeep s (renameContributor s id n adm ts)
  | .delete id adm => orKeep s (deleteContributor s id adm ts)

/-- A sequence of mutation steps. -/
def applyMuts (s : ServerState) (ts : String) : List MutOp → ServerState
  | [] => s
  | op :: rest => applyMuts (applyMut s ts op) ts rest

/-- The length invariant of every deposit series: labels and values stay
aligned, for the aggregate and for every contributor. -/
def lenInv (s : ServerState) : Prop :=
  s.chartData.labels.length = s.chartData.values.length ∧
  ∀ p ∈ s.userData, p.2.labels.length = p.2.values.length

/-- One call description for a sequence of deposits: amount, label,
contributor and actor. -/
structure AppendCall where
  amount : JSNum
  label : String
  user : String
  admin : String

/-- Running a sequence of deposits, stopping at the first failure. -/
def runAppends (s : ServerState) (ts : String) : List AppendCall → Except JsError ServerState
  | [] => .ok s
  | c :: rest =>
    match appendDeposit s c.amount c.label c.user c.admin ts with
    | .error e => .error e
    | .ok s2 => runAppends s2 ts rest

/-- The roster identifier-derivation invariant claimed by the spec:
every member's identifier equals the derivation from its current name. -/
def rosterIdInvariant (s : ServerState) : Bool :=
  s.teamData.all (fun m => m.id == deriveTeamId m.name)

/-! Helper lemmas about the JavaScript-object model and the handlers. -/

theorem objGet_objSet_self {α : Type} (m : List (String × α)) (k : String) (v : α) :
    objGet (objSet m k v) k = some v := by
  induction m with
  | nil => simp [objSet, objGet]
  | cons p rest ih =>
    by_cases hp : p.1 = k
    · simp [objSet, hp, objGet]
    · simp [objSet, hp, objGet, ih]

theorem objGet_objSet_ne {α : Type} (m : List (String × α)) (k k' : String) (v : α)
    (h : k' ≠ k) : objGet (objSet m k v) k' = objGet m k' := by
  induction m with
  | nil =>
    simp only [objSet, objGet]
    rw [if_neg (fun hh => h hh.symm)]
  | cons p rest ih =>
    by_cases hp : p.1 = k
    · simp only [objSet, if_pos hp, objGet]
      rw [if_neg (fun hh => h hh.symm), if_neg (fun hh => h (hp ▸ hh).symm)]
    · simp only [objSet, if_neg hp, objGet, ih]

theorem objGet_objDelete_self {α : Type} (m : List (String × α)) (k : String) :
    objGet (objDelete m k) k = none := by
  induction m with
  | nil => rfl
  | cons p rest ih =>
    by_cases hp : p.1 = k
    · simp [objDelete, hp, ih]
    · simp [objDelete, hp, objGet, ih]

theorem objGet_objDelete_ne {α : Type} (m : List (String × α)) (k k' : String)
    (h : k' ≠ k) : objGet (objDelete m k) k' = objGet m k' := by
  induction m with
  | nil => rfl
  | cons p rest ih =>
    by_cases hp : p.1 = k
    · rw [objDelete, if_pos hp, ih, objGet, if_neg (fun hh => h ((hp ▸ hh : (k : String) = k')).symm)]
    · simp only [objDelete, if_neg hp, objGet, ih]

theorem objSet_mem {α : Type} {m : List (String × α)} {k : String} {v : α}
    {p : String × α} (h : p ∈ objSet m k v) : p = (k, v) ∨ p ∈ m := by
  induction m with
  | nil => simp [objSet] at h; simp [h]
  | cons q rest ih =>
    by_cases hq : q.1 = k
    · rw [objSet, if_pos hq] at h
      rcases List.mem_cons.mp h with h1 | h1
      · exact Or.inl h1
      · exact Or.inr (List.mem_cons_of_mem q h1)
    · rw [objSet, if_neg hq] at h
      rcases List.mem_cons.mp h with h1 | h1
      · exact Or.inr (h1 ▸ List.mem_cons_self q rest)
      · rcases ih h1 with h2 | h2
        · exact Or.inl h2
        · exact Or.inr (List.mem_cons_of_mem q h2)

theorem objDelete_mem {α : Type} {m : List (String × α)} {k : String}
    {p : String × α} (h : p ∈ objDelete m k) : p ∈ m ∧ p.1 ≠ k := by
  induction m with
  | nil => simp [objDelete] at h
  | cons q rest ih =>
    by_cases hq : q.1 = k
    · rw [objDelete, if_pos hq] at h
      exact ⟨List.mem_cons_of_mem q (ih h).1, (ih h).2⟩
    · rw [objDelete, if_neg hq] at h
      rcases List.mem_cons.mp h with h1 | h1
      · exact ⟨h1 ▸ List.mem_cons_self q rest, h1 ▸ hq⟩
      · exact ⟨List.mem_cons_of_mem q (ih h1).1, (ih h1).2⟩

theorem objGet_mem {α : Type} {m : List (String × α)} {k : String} {v : α}
    (h : objGet m k = some v) : (k, v) ∈ m := by
  induction m with
  | nil => simp [objGet] at h
  | cons p rest ih =>
    by_cases hp : p.1 = k
    · rw [objGet, if_pos hp] at h
      injection h with h
      subst h hp
      exact List.mem_cons_self p rest
    · rw [objGet, if_neg hp] at h
      exact List.mem_cons_of_mem p (ih h)

theorem find?_append_none {α : Type} {p : α → Bool} {l1 l2 : List α}
    (h : ∀ x ∈ l1, p x = false) : (l1 ++ l2).find? p = l2.find? p := by
  induction l1 with
  | nil => rfl
  | cons a rest ih =>
    have ha := h a (List.mem_cons_self a rest)
    simp only [List.cons_append, List.find?, ha]
    exact ih (fun x hx => h x (List.mem_cons_of_mem a hx))

theorem map_jsonNum_of_finite {l : List JSNum} (h : ∀ v ∈ l, isFiniteNum v = true) :
    List.map jsonNum l = l := by
  induction l with
  | nil => rfl
  | cons a rest ih =>
    have ha := h a (List.mem_cons_self a rest)
    have hrest := ih (fun v hv => h v (List.mem_cons_of_mem a hv))
    cases a <;> simp_all [jsonNum, isFiniteNum]

theorem appendDeposit_history {s s' : ServerState} {a : JSNum} {l u adm ts : String}
    (h : appendDeposit s a l u adm ts = .ok s') :
    s'.monthlyHistory = s.monthlyHistory := by
  unfold appendDeposit at h
  repeat' split at h
  all_goals first
    | exact Except.noConfusion h
    | (injection h with h; subst h; rfl)

theorem editEntryTime_history {s s' : ServerState} {u : String} {i : Int}
    {t adm ts : String} (h : editEntryTime s u i t adm ts = .ok s') :
    s'.monthlyHistory = s.monthlyHistory := by
  unfold editEntryTime at h
  repeat' split at h
  all_goals first
    | exact Except.noConfusion h
    | (injection h with h; subst h; rfl)

theorem renameContributor_history {s s' : ServerState} {id n adm ts : String}
    (h : renameContributor s id n adm ts = .ok s') :
    s'.monthlyHistory = s.monthlyHistory := by
  unfold renameContributor at h
  repeat' split at h
  all_goals first
    | exact Except.noConfusion h
    | (injection h with h; subst h; rfl)

theorem deleteContributor_history {s s' : ServerState} {id adm ts : String}
    (h : deleteContributor s id adm ts = .ok s') :
    s'.monthlyHistory = s.monthlyHistory := by
  unfold deleteContributor at h
  repeat' split at h
  all_goals first
    | exact Except.noConfusion h
    | (injection h with h; subst h; rfl)

theorem applyMut_history (s : ServerState) (ts : String) (op : MutOp) :
    (applyMut s ts op).monthlyHistory = s.monthlyHistory := by
  cases op with
  | append a l u adm =>
    rw [applyMut]
    cases h : appendDeposit s a l u adm ts with
    | error e => rfl
    | ok s2 => exact appendDeposit_history h
  | edit u i t adm =>
    rw [applyMut]
    cases h : editEntryTime s u i t adm ts with
    | error e => rfl
    | ok s2 => exact editEntryTime_history h
  | rename id n adm =>
    rw [applyMut]
    cases h : renameContributor s id n adm ts with
    | error e => rfl
    | ok s2 => exact renameContributor_history h
  | delete id adm =>
    rw [applyMut]
    cases h : deleteContributor s id adm ts with
    | error e => rfl
    | ok s2 => exact deleteContributor_history h

theorem applyMuts_history (ts : String) (ops : List MutOp) (s : ServerState) :
    (applyMuts s ts ops).monthlyHistory = s.monthlyHistory := by
  induction ops generalizing s with
  | nil => rfl
  | cons op rest ih =>
    rw [applyMuts, ih, applyMut_history]

/-- C1 (counterexample): the claim asserts that closing and then
restoring a period reproduces every contributor's entries metadata
exactly.  On a concrete state holding one contributor with one entries
record, the restored record has no entries at all, although no mutation
happened between close and restore. -/
def c1State : ServerState :=
  { chartData := ⟨["t1"], [.fin 5]⟩,
    userData := [("Ana", ⟨["t1"], [.fin 5], some [⟨"t1", .fin 5, 0⟩]⟩)],
    logs := [],
    monthlyHistory := [],
    currentMonth := "2026-10",
    teamData := initialTeam }

theorem C1_counterexample_entries_not_restored :
    (restoreMonth (resetMonth c1State "adm" "t2" "2026-11").1
        (resetMonth c1State "adm" "t2" "2026-11").2 "adm" "t3").map
      (fun s3 => objGet s3.userData "Ana") =
      .ok (some (UserRec.mk ["t1"] [.fin 5] none)) ∧
    objGet c1State.userData "Ana" =
      some (UserRec.mk ["t1"] [.fin 5] (some [⟨"t1", .fin 5, 0⟩])) := by
  exact ⟨by decide, by decide⟩

/-- C1 (amended): closing a period and then restoring the period
identifier just produced reproduces the aggregate series exactly and
every contributor's labels and values exactly as they were at close
time, regardless of any deposit, entry-edit, rename or delete mutations
performed in between — but each contributor's record is rebuilt without
its entries metadata, and stored contributor values must be finite for
the snapshot's JSON copy to preserve them. -/
theorem C1_close_then_restore_reproduces_series (s : ServerState) (ops : List MutOp)
    (adm ts newMonth mts adm2 ts2 : String)
    (hm : s.currentMonth ≠ "")
    (hmonth : ∀ snap ∈ s.monthlyHistory, snap.month ≠ s.currentMonth)
    (hfin : ∀ p ∈ s.userData, ∀ v ∈ p.2.values, isFiniteNum v = true) :
    ∃ s3, restoreMonth (applyMuts (resetMonth s adm ts newMonth).1 mts ops)
            (resetMonth s adm ts newMonth).2 adm2 ts2 = .ok s3 ∧
          s3.chartData = s.chartData ∧
          s3.userData = s.userData.map (fun p => (p.1, UserRec.mk p.2.labels p.2.values none)) := by
  have hper : (resetMonth s adm ts newMonth).2 = s.currentMonth := rfl
  have h2 : (applyMuts (resetMonth s adm ts newMonth).1 mts ops).monthlyHistory =
      s.monthlyHistory ++
        [⟨s.currentMonth, s.chartData, s.userData.map (fun p => (p.1, jsonUser p.2)),
          s.teamData⟩] := by
    rw [applyMuts_history]; rfl
  have hfind : (applyMuts (resetMonth s adm ts newMonth).1 mts ops).monthlyHistory.find?
      (fun h => h.month == s.currentMonth) =
      some ⟨s.currentMonth, s.chartData, s.userData.map (fun p => (p.1, jsonUser p.2)),
            s.teamData⟩ := by
    rw [h2, find?_append_none]
    · simp [List.find?]
    · intro x hx
      exact beq_eq_false_iff_ne.mpr (hmonth x hx)
  have hres : restoreMonth (applyMuts (resetMonth s adm ts newMonth).1 mts ops)
      (resetMonth s adm ts newMonth).2 adm2 ts2 =
      .ok { chartData := s.chartData,
            userData := (s.userData.map (fun p => (p.1, jsonUser p.2))).map
              (fun p => (p.1, ⟨p.2.labels, p.2.values, none⟩)),
            logs := addLog (applyMuts (resetMonth s adm ts newMonth).1 mts ops).logs
              ts2 adm2 "restoreMonth",
            monthlyHistory := (applyMuts (resetMonth s adm ts newMonth).1 mts ops).monthlyHistory,
            currentMonth := s.currentMonth,
            teamData := s.teamData } := by
    rw [restoreMonth, hper, if_neg hm, hfind]
  refine ⟨_, hres, rfl, ?_⟩
  show (List.map (fun p => (p.1, jsonUser p.2)) s.userData).map
      (fun p => ((p.1 : String), (⟨p.2.labels, p.2.values, none⟩ : UserRec))) =
    s.userData.map (fun p => (p.1, UserRec.mk p.2.labels p.2.values none))
  rw [List.map_map]
  refine List.map_congr_left (fun p hp => ?_)
  show (p.1, UserRec.mk p.2.labels (p.2.values.map jsonNum) none) =
    (p.1, UserRec.mk p.2.labels p.2.values none)
  rw [map_jsonNum_of_finite (hfin p hp)]

/-- C1 (witness): the amended round trip evaluated on a concrete state
with one contributor and one interleaved deposit mutation. -/
theorem C1_close_then_restore_witness :
    ∃ s3, restoreMonth
        (applyMuts (resetMonth c1State "adm" "t2" "2026-11").1 "t4"
          [.append (.fin 3) "t5" "Bea" "adm"])
        (resetMonth c1State "adm" "t2" "2026-11").2 "adm" "t3" = .ok s3 ∧
      s3.chartData = c1State.chartData ∧
      s3.userData = c1State.userData.map (fun p => (p.1, UserRec.mk p.2.labels p.2.values none)) :=
  C1_close_then_restore_reproduces_series c1State [.append (.fin 3) "t5" "Bea" "adm"]
    "adm" "t2" "2026-11" "t4" "adm" "t3" (by decide) (by decide) (by decide)

/-- C2 (counterexample): the claim asserts rejection of every non-finite
amount, but the add handler only tests isNaN, so an infinite amount —
reachable since parseFloat turns the path segment Infinity into the
infinite value — is accepted and appended to the aggregate series. -/
theorem C2_counterexample_infinity_accepted :
    isFiniteNum .inf = false ∧
    (appendDeposit initialServerState .inf "27/01/2026 123000" "" "adm" "ts").map
        (fun s2 => s2.chartData.values) = .ok [.inf] := by
  exact ⟨rfl, by decide⟩

/-- C2 (amended): appendDeposit fails with InvalidAmount exactly when
the parsed amount is NaN — the infinities are accepted and appended like
finite values.  The rejection happens before any mutation.  Every
non-NaN amount succeeds and appends one element to each aggregate list,
provided the named contributor is absent, fresh, or still carries
entries metadata (a record rebuilt without entries makes the handler
throw instead). -/
theorem C2_append_rejects_exactly_nan (s : ServerState) (amount : JSNum)
    (label userName adminName ts : String) :
    (isNaNb amount = true →
      appendDeposit s amount label userName adminName ts = .error .invalidAmount) ∧
    (isNaNb amount = false →
      (userName = "" ∨ objGet s.userData userName = none ∨
        (∃ d es, objGet s.userData userName = some d ∧ d.entries = some es)) →
      ∃ s2, appendDeposit s amount label userName adminName ts = .ok s2 ∧
        s2.chartData.labels = s.chartData.labels ++ [label] ∧
        s2.chartData.values = s.chartData.values ++ [amount]) := by
  constructor
  · intro h
    rw [appendDeposit, if_pos h]
  · intro hn hcase
    rw [appendDeposit, if_neg (by simp [hn])]
    rcases hcase with h | h | ⟨d, es, hd, he⟩
    · rw [if_pos h]
      exact ⟨_, rfl, rfl, rfl⟩
    · by_cases hu : userName = ""
      · rw [if_pos hu]; exact ⟨_, rfl, rfl, rfl⟩
      · rw [if_neg hu, h]; exact ⟨_, rfl, rfl, rfl⟩
    · rcases d with ⟨dl, dv, de⟩
      cases he
      by_cases hu : userName = ""
      · rw [if_pos hu]; exact ⟨_, rfl, rfl, rfl⟩
      · rw [if_neg hu, hd]; exact ⟨_, rfl, rfl, rfl⟩

/-- C2 (witness): NaN is rejected and a finite amount is appended, on
the startup state. -/
theorem C2_append_witness :
    appendDeposit initialServerState .nan "l" "" "adm" "ts" = .error .invalidAmount ∧
    ∃ s2, appendDeposit initialServerState (.fin 5) "l" "Ana" "adm" "ts" = .ok s2 ∧
      s2.chartData.labels = initialServerState.chartData.labels ++ ["l"] ∧
      s2.chartData.values = initialServerState.chartData.values ++ [.fin 5] :=
  ⟨(C2_append_rejects_exactly_nan initialServerState .nan "l" "" "adm" "ts").1 rfl,
   (C2_append_rejects_exactly_nan initialServerState (.fin 5) "l" "Ana" "adm" "ts").2 rfl
     (Or.inr (Or.inl rfl))⟩

theorem getD_eq_default_of_le {α : Type} (l : List α) (i : Nat) (dflt : α)
    (h : l.length ≤ i) : l.getD i dflt = dflt := by
  induction l generalizing i with
  | nil => rfl
  | cons x tl ih =>
    cases i with
    | zero => simp at h
    | succ n => exact ih n (Nat.le_of_succ_le_succ h)

theorem getD_set_self {α : Type} (l : List α) (i : Nat) (a dflt : α) (h : i < l.length) :
    (l.set i a).getD i dflt = a := by
  induction l generalizing i with
  | nil => simp at h
  | cons x tl ih =>
    cases i with
    | zero => rfl
    | succ n => exact ih n (Nat.lt_of_succ_lt_succ h)

theorem getD_set_ne {α : Type} (l : List α) (i j : Nat) (a dflt : α) (h : j ≠ i) :
    (l.set i a).getD j dflt = l.getD j dflt := by
  induction l generalizing i j with
  | nil => rfl
  | cons x tl ih =>
    cases i with
    | zero =>
      cases j with
      | zero => exact absurd rfl h
      | succ m => rfl
    | succ n =>
      cases j with
      | zero => rfl
      | succ m => exact ih n m (fun hh => h (by rw [hh]))

/-- C3 (confirmed): for a contributor with an entry at a valid index —
under the invariants that hold on every reachable store: the label at
that index is present and non-empty and the recorded aggregate index is
in range — editing the entry time sets the contributor label and the
entry's time and the aggregate label at the recorded cross-reference
index to the new time, and leaves every other label, every value in
both series, the entry's other fields and every other contributor's
record unchanged. -/
theorem C3_editEntryTime_updates_and_frames (s : ServerState) (c : String) (i : Nat)
    (t adm ts : String) (d : UserRec) (es : List Entry) (e : Entry)
    (hc : c ≠ "") (ht : t ≠ "")
    (hd : objGet s.userData c = some d)
    (he : d.entries = some es)
    (hi : i < es.length)
    (hee : es.get ⟨i, hi⟩ = e)
    (hne : d.labels.getD i "" ≠ "")
    (hagg : e.totalIndex < s.chartData.labels.length) :
    ∃ s2, editEntryTime s c (i : Int) t adm ts = .ok s2 ∧
      (∃ d2, objGet s2.userData c = some d2 ∧
        d2.labels = d.labels.set i t ∧
        d2.labels.getD i "" = t ∧
        (∀ j, j ≠ i → d2.labels.getD j "" = d.labels.getD j "") ∧
        d2.values = d.values ∧
        d2.entries = some (es.set i ⟨t, e.value, e.totalIndex⟩)) ∧
      s2.chartData.labels = s.chartData.labels.set e.totalIndex t ∧
      s2.chartData.labels.getD e.totalIndex "" = t ∧
      (∀ k, k ≠ e.totalIndex →
        s2.chartData.labels.getD k "" = s.chartData.labels.getD k "") ∧
      s2.chartData.values = s.chartData.values ∧
      (∀ n, n ≠ c → objGet s2.userData n = objGet s.userData n) := by
  have hil : i < d.labels.length := by
    by_contra hcon
    exact hne (getD_eq_default_of_le d.labels i "" (Nat.le_of_not_lt hcon))
  have hcnd : ¬(c = "" ∨ t = "") := by simp [hc, ht]
  have hineg : ¬((i : Int) < 0) := by omega
  have heq : editEntryTime s c (i : Int) t adm ts =
      .ok { s with
            userData := objSet s.userData c
              ⟨d.labels.set i t, d.values, some (es.set i ⟨t, e.value, e.totalIndex⟩)⟩,
            chartData := ⟨s.chartData.labels.set e.totalIndex t, s.chartData.values⟩,
            logs := addLog s.logs ts adm "editEntryTime" } := by
    rw [editEntryTime, if_neg hcnd, hd]
    dsimp only
    rw [he]
    dsimp only
    rw [if_neg hineg]
    simp only [Int.toNat_natCast]
    rw [dif_pos hi, hee, if_neg hne, if_pos hagg]
  refine ⟨_, heq, ⟨_, objGet_objSet_self s.userData c _, rfl,
      getD_set_self d.labels i t "" hil,
      fun j hj => getD_set_ne d.labels i j t "" hj, rfl, rfl⟩,
    rfl, getD_set_self s.chartData.labels _ t "" hagg,
    fun k hk => getD_set_ne s.chartData.labels _ k t "" hk, rfl,
    fun n hn => objGet_objSet_ne s.userData c n _ hn⟩

/-- C3 (witness): the edit theorem evaluated at a concrete one-entry
state: the new time lands in the contributor labels and in the aggregate
labels at the recorded index, and values stay untouched. -/
theorem C3_editEntryTime_witness :
    ∃ s2, editEntryTime c1State "Ana" ((0 : Nat) : Int) "t9" "adm" "ts" = .ok s2 ∧
      (∃ d2, objGet s2.userData "Ana" = some d2 ∧
        d2.labels = ["t1"].set 0 "t9" ∧
        d2.labels.getD 0 "" = "t9" ∧
        (∀ j, j ≠ 0 → d2.labels.getD j "" = ["t1"].getD j "") ∧
        d2.values = [.fin 5] ∧
        d2.entries = some ([⟨"t1", .fin 5, 0⟩].set 0 ⟨"t9", .fin 5, 0⟩)) ∧
      s2.chartData.labels = ["t1"].set 0 "t9" ∧
      s2.chartData.labels.getD 0 "" = "t9" ∧
      (∀ k, k ≠ 0 → s2.chartData.labels.getD k "" = ["t1"].getD k "") ∧
      s2.chartData.values = [.fin 5] ∧
      (∀ n, n ≠ "Ana" → objGet s2.userData n = objGet c1State.userData n) :=
  C3_editEntryTime_updates_and_frames c1State "Ana" 0 "t9" "adm" "ts"
    ⟨["t1"], [.fin 5], some [⟨"t1", .fin 5, 0⟩]⟩ [⟨"t1", .fin 5, 0⟩] ⟨"t1", .fin 5, 0⟩
    (by decide) (by decide) rfl rfl (by decide) rfl (by decide) (by decide)

/-- Concrete two-contributor state used to exhibit the rename
overwrite: contributors a and b each hold one deposit. -/
def c4State : ServerState :=
  { chartData := ⟨["t1", "t2"], [.fin 1, .fin 2]⟩,
    userData := [("a", ⟨["t1"], [.fin 1], some [⟨"t1", .fin 1, 0⟩]⟩),
                 ("b", ⟨["t2"], [.fin 2], some [⟨"t2", .fin 2, 1⟩]⟩)],
    logs := [],
    monthlyHistory := [],
    currentMonth := "2026-10",
    teamData := initialTeam }

/-- C4 (counterexample): the claim says renaming onto a colliding name
fails with DuplicateKey and leaves the store unchanged.  Renaming
contributor a to the already-present name b instead succeeds and
silently overwrites contributor b's record with a's series, so b's
original series is lost and only one contributor remains. -/
theorem C4_counterexample_rename_overwrites :
    objGet c4State.userData "b" = some ⟨["t2"], [.fin 2], some [⟨"t2", .fin 2, 1⟩]⟩ ∧
    (renameContributor c4State "a" "b" "adm" "ts").map (fun s2 => s2.userData) =
      .ok [("b", ⟨["t1"], [.fin 1], none⟩)] := by
  exact ⟨by decide, by decide⟩

/-- C4 (amended): the rename handler performs no duplicate check of any
kind.  When the resolved old key differs from a new name that is already
a stored key, the rename succeeds — it never fails with DuplicateKey —
the old key disappears, and the existing contributor's record under the
new name is overwritten with the renamed series (labels and values
copied, entries metadata dropped). -/
theorem C4_rename_collision_overwrites (s : ServerState)
    (id newName adm ts : String) (k : String) (d dOld : UserRec)
    (hnew : newName ≠ "")
    (hfind : findUserByIdKey s.userData id = some (k, d))
    (hcoll : objGet s.userData newName = some dOld)
    (hne : k ≠ newName) :
    ∃ s2, renameContributor s id newName adm ts = .ok s2 ∧
      objGet s2.userData newName = some ⟨d.labels, d.values, none⟩ ∧
      objGet s2.userData k = none := by
  have heq : renameContributor s id newName adm ts =
      .ok { s with userData := objSet (objDelete s.userData k) newName ⟨d.labels, d.values, none⟩,
                   logs := addLog s.logs ts adm "userRename" } := by
    rw [renameContributor, if_neg hnew, hfind]
  refine ⟨_, heq, objGet_objSet_self _ newName _, ?_⟩
  rw [objGet_objSet_ne _ newName k _ hne, objGet_objDelete_self]

/-- C4 (witness): the amended rename behavior evaluated on the concrete
two-contributor state. -/
theorem C4_rename_collision_witness :
    ∃ s2, renameContributor c4State "a" "b" "adm" "ts" = .ok s2 ∧
      objGet s2.userData "b" = some ⟨["t1"], [.fin 1], none⟩ ∧
      objGet s2.userData "a" = none :=
  C4_rename_collision_overwrites c4State "a" "b" "adm" "ts" "a"
    ⟨["t1"], [.fin 1], some [⟨"t1", .fin 1, 0⟩]⟩
    ⟨["t2"], [.fin 2], some [⟨"t2", .fin 2, 1⟩]⟩
    (by decide) (by decide) (by decide) (by decide)

/-- C5 (confirmed): the master account of the credentials the server
initializes is named Esther, and clearing the audit log fails with
PermissionDenied exactly for actors that do not case-insensitively match
that name; a matching actor empties the log and the clear action itself
becomes the log's only record, so the log afterwards has exactly one
record.  The handler hardcodes the lowercased master name, which
coincides with lowercasing the isMaster credential's name. -/
theorem C5_clear_logs_master_only (s : ServerState) (actor ts : String) :
    masterName defaultCredentials = some "Esther" ∧
    (jsToLower actor ≠ jsToLower "Esther" →
      clearLogs s actor ts = .error .permissionDenied) ∧
    (jsToLower actor = jsToLower "Esther" →
      ∃ s2, clearLogs s actor ts = .ok s2 ∧
        s2.logs = [⟨ts, actor, "clearLogs"⟩] ∧ s2.logs.length = 1) := by
  refine ⟨rfl, ?_, ?_⟩
  · intro h
    rw [clearLogs, if_pos]
    by_cases ha : actor = ""
    · exact Or.inl ha
    · exact Or.inr h
  · intro h
    have ha : actor ≠ "" := by
      intro hh
      rw [hh] at h
      exact absurd h.symm (by decide)
    have hno : ¬(actor = "" ∨ jsToLower actor ≠ "esther") := by
      push_neg
      exact ⟨ha, h⟩
    have hlog : addLog [] ts actor "clearLogs" = [⟨ts, actor, "clearLogs"⟩] := by
      rw [addLog, if_neg ha]
      rfl
    have heq : clearLogs s actor ts =
        .ok { s with logs := addLog [] ts actor "clearLogs" } := by
      rw [clearLogs, if_neg hno]
    refine ⟨_, heq, hlog, ?_⟩
    show (addLog [] ts actor "clearLogs").length = 1
    rw [hlog]
    rfl
/-- C5 (witness): a non-matching actor is denied and a case-varied
spelling of the master name clears the log down to the single clear
record. -/
theorem C5_clear_logs_witness :
    clearLogs c4State "Maria" "t7" = .error .permissionDenied ∧
    ∃ s2, clearLogs c4State "esTHer" "t7" = .ok s2 ∧
      s2.logs = [⟨"t7", "esTHer", "clearLogs"⟩] ∧ s2.logs.length = 1 :=
  ⟨(C5_clear_logs_master_only c4State "Maria" "t7").2.1 (by decide),
   (C5_clear_logs_master_only c4State "esTHer" "t7").2.2 (by decide)⟩

theorem appendDeposit_lenInv {s s2 : ServerState} {a : JSNum} {l u adm ts : String}
    (hinv : lenInv s) (h : appendDeposit s a l u adm ts = .ok s2) :
    lenInv s2 ∧
    s2.chartData.labels.length = s.chartData.labels.length + 1 ∧
    s2.chartData.values.length = s.chartData.values.length + 1 := by
  obtain ⟨hagg, husers⟩ := hinv
  unfold appendDeposit at h
  split at h
  · exact Except.noConfusion h
  · split at h
    · injection h with h
      subst h
      exact ⟨⟨by simp [hagg], husers⟩, by simp, by simp⟩
    · split at h
      · injection h with h
        subst h
        refine ⟨⟨by simp [hagg], ?_⟩, by simp, by simp⟩
        intro p hp
        rcases objSet_mem hp with hp1 | hp1
        · rw [hp1]
          rfl
        · exact husers p hp1
      · rename_i r heq
        split at h
        · exact Except.noConfusion h
        · rename_i es hes
          injection h with h
          subst h
          refine ⟨⟨by simp [hagg], ?_⟩, by simp, by simp⟩
          intro p hp
          rcases objSet_mem hp with hp1 | hp1
          · rw [hp1]
            have hr := husers (u, r) (objGet_mem heq)
            simp at hr ⊢
            omega
          · exact husers p hp1

/-- C6 (confirmed): starting from any state satisfying the length
invariant, any sequence of successful deposits preserves the invariant
for the aggregate series and every contributor series, and the aggregate
labels and values each grow by exactly one per call. -/
theorem C6_append_sequence_length_invariant (ops : List AppendCall) (s s2 : ServerState)
    (ts : String) (hinv : lenInv s) (hrun : runAppends s ts ops = .ok s2) :
    lenInv s2 ∧
    s2.chartData.labels.length = s.chartData.labels.length + ops.length ∧
    s2.chartData.values.length = s.chartData.values.length + ops.length := by
  induction ops generalizing s with
  | nil =>
    injection hrun with h
    subst h
    exact ⟨hinv, rfl, rfl⟩
  | cons c rest ih =>
    rw [runAppends] at hrun
    split at hrun
    · exact Except.noConfusion hrun
    · rename_i s1 heq
      obtain ⟨hinv1, hl1, hv1⟩ := appendDeposit_lenInv hinv heq
      obtain ⟨hinv2, hl2, hv2⟩ := ih s1 hinv1 hrun
      refine ⟨hinv2, ?_, ?_⟩ <;> rw [List.length_cons] <;> omega

/-- Two-call deposit sequence and its resulting state, used as the
witness input for the length-invariant theorem. -/
def c6Ops : List AppendCall :=
  [⟨.fin 5, "t1", "Ana", "adm"⟩, ⟨.fin 3, "t2", "", "adm"⟩]

def c6Final : ServerState :=
  (runAppends initialServerState "ts" c6Ops).toOption.getD initialServerState

/-- C6 (witness): the invariant theorem evaluated on a concrete
two-deposit run from the startup state. -/
theorem C6_append_sequence_witness :
    lenInv c6Final ∧
    c6Final.chartData.labels.length = initialServerState.chartData.labels.length + 2 ∧
    c6Final.chartData.values.length = initialServerState.chartData.values.length + 2 :=
  C6_append_sequence_length_invariant c6Ops initialServerState c6Final "ts"
    (by constructor <;> decide) (by decide)

/-- Concrete state in which two distinct contributor names share the
same sanitized identifier. -/
def c7State : ServerState :=
  { chartData := ⟨["t1", "t2"], [.fin 1, .fin 2]⟩,
    userData := [("Ana", ⟨["t1"], [.fin 1], some [⟨"t1", .fin 1, 0⟩]⟩),
                 ("ana", ⟨["t2"], [.fin 2], some [⟨"t2", .fin 2, 1⟩]⟩)],
    logs := [],
    monthlyHistory := [],
    currentMonth := "2026-10",
    teamData := initialTeam }

/-- C7 (counterexample): the claim says deleting an existing
contributor x removes x from the contributors listing.  With
contributors Ana and ana — distinct keys with the same sanitized
identifier ana — deleting by the identifier of the existing contributor
ana removes the first match Ana instead, and ana is still listed
afterwards. -/
theorem C7_counterexample_sanitized_collision :
    sanitizeName "ana" = "ana" ∧
    objGet c7State.userData "ana" = some ⟨["t2"], [.fin 2], some [⟨"t2", .fin 2, 1⟩]⟩ ∧
    (deleteContributor c7State "ana" "adm" "ts").map
        (fun s2 => (listContributors s2).map (fun q => q.name)) = .ok ["ana"] := by
  exact ⟨by decide, by decide, by decide⟩

/-- C7 (amended): deleting by identifier removes exactly the first
stored contributor whose sanitized name matches — so x itself whenever x
is the unique holder of its sanitized identifier — and in every case the
aggregate series (hence its total) and every other contributor's record
are completely unchanged. -/
theorem C7_delete_removes_first_match_frames (s : ServerState) (id adm ts : String)
    (x : String) (d : UserRec)
    (hfind : findUserByIdKey s.userData id = some (x, d)) :
    ∃ s2, deleteContributor s id adm ts = .ok s2 ∧
      s2.chartData = s.chartData ∧
      s2.userData = objDelete s.userData x ∧
      (∀ q ∈ listContributors s2, q.name ≠ x) ∧
      (∀ n, n ≠ x → objGet s2.userData n = objGet s.userData n) := by
  have heq : deleteContributor s id adm ts =
      .ok { s with userData := objDelete s.userData x,
                   logs := addLog s.logs ts adm "userDelete" } := by
    rw [deleteContributor, hfind]
  refine ⟨_, heq, rfl, rfl, ?_, ?_⟩
  · intro q hq
    rcases List.mem_map.mp hq with ⟨p, hp, hq2⟩
    rw [← hq2]
    exact (objDelete_mem hp).2
  · intro n hn
    exact objGet_objDelete_ne s.userData x n hn

/-- C7 (witness): the delete theorem evaluated on the collision state;
the first matching key Ana is removed and the aggregate is untouched. -/
theorem C7_delete_witness :
    ∃ s2, deleteContributor c7State "ana" "adm" "ts" = .ok s2 ∧
      s2.chartData = c7State.chartData ∧
      s2.userData = objDelete c7State.userData "Ana" ∧
      (∀ q ∈ listContributors s2, q.name ≠ "Ana") ∧
      (∀ n, n ≠ "Ana" → objGet s2.userData n = objGet c7State.userData n) :=
  C7_delete_removes_first_match_frames c7State "ana" "adm" "ts" "Ana"
    ⟨["t1"], [.fin 1], some [⟨"t1", .fin 1, 0⟩]⟩ (by decide)

theorem updateMemberFirst_ids (id name : String) (desc : Option String) :
    ∀ l l2, updateMemberFirst id name desc l = some l2 →
      l2.map Member.id = l.map Member.id := by
  intro l
  induction l with
  | nil => intro l2 h; exact Option.noConfusion h
  | cons m rest ih =>
    intro l2 h
    simp only [updateMemberFirst] at h
    split at h
    · injection h with h
      subst h
      simp
    · split at h
      · exact Option.noConfusion h
      · rename_i rest2 h2
        injection h with h
        subst h
        simp [ih rest2 h2]

theorem removeMemberFirst_sublist (id : String) :
    ∀ l r l2, removeMemberFirst id l = some (r, l2) →
      List.Sublist (l2.map Member.id) (l.map Member.id) := by
  intro l
  induction l with
  | nil => intro r l2 h; exact Option.noConfusion h
  | cons m rest ih =>
    intro r l2 h
    simp only [removeMemberFirst] at h
    split at h
    · injection h with h
      cases h
      simp only [List.map_cons]
      exact List.sublist_cons_self _ _
    · split at h
      · exact Option.noConfusion h
      · rename_i r2 rest2 h2
        injection h with h
        cases h
        simp only [List.map_cons]
        exact List.Sublist.cons₂ _ (ih r rest2 h2)

/-- C8 (counterexample): the claim says every roster operation preserves
the invariant that each member's identifier equals the derivation from
its current name.  On the startup roster — which satisfies the
invariant — updating member esther to the name Maria keeps the old
identifier esther, while the derivation of Maria is maria, so the
invariant is broken by the update operation. -/
theorem C8_counterexample_update_breaks_derivation :
    rosterIdInvariant initialServerState = true ∧
    deriveTeamId "Maria" = "maria" ∧
    (teamUpdate initialServerState "esther" "Maria" none "adm" "ts").map rosterIdInvariant =
      .ok false := by
  exact ⟨by decide, by decide, by decide⟩

/-- C8 (amended): roster identifiers are derived from the name at
creation time and are unique, and uniqueness is preserved by every
roster operation: creation appends exactly the derived identifier and
keeps the identifier list duplicate-free, update leaves the identifier
list unchanged (it never re-derives, so the identifier may diverge from
the current name after a rename), and deletion removes one identifier,
preserving uniqueness. -/
theorem C8_roster_id_derivation_and_uniqueness :
    (∀ s name desc adm ts s2, teamCreate s name desc adm ts = .ok s2 →
      s2.teamData.map Member.id = s.teamData.map Member.id ++ [deriveTeamId name] ∧
      (∃ m ∈ s2.teamData, m.id = deriveTeamId m.name ∧ m.name = name) ∧
      ((s.teamData.map Member.id).Nodup → (s2.teamData.map Member.id).Nodup)) ∧
    (∀ s id name desc adm ts s2, teamUpdate s id name desc adm ts = .ok s2 →
      s2.teamData.map Member.id = s.teamData.map Member.id) ∧
    (∀ s id adm ts s2, teamDelete s id adm ts = .ok s2 →
      List.Sublist (s2.teamData.map Member.id) (s.teamData.map Member.id) ∧
      ((s.teamData.map Member.id).Nodup → (s2.teamData.map Member.id).Nodup)) := by
  refine ⟨?_, ?_, ?_⟩
  · intro s name desc adm ts s2 h
    rw [teamCreate] at h
    split at h
    · exact Except.noConfusion h
    · dsimp only at h
      split at h
      · exact Except.noConfusion h
      · rename_i hany
        injection h with h
        subst h
        refine ⟨by simp, ?_, ?_⟩
        · exact ⟨⟨deriveTeamId name, name, desc⟩, by simp, rfl, rfl⟩
        intro hn
        have hnotmem : deriveTeamId name ∉ s.teamData.map Member.id := by
          intro hmem
          rcases List.mem_map.mp hmem with ⟨m, hm, hid⟩
          have hval : (s.teamData.any fun mb => mb.id == deriveTeamId name) = true :=
            List.any_eq_true.mpr ⟨m, hm, by simp [hid]⟩
          exact hany hval
        show ((s.teamData ++ [(⟨deriveTeamId name, name, desc⟩ : Member)]).map Member.id).Nodup
        rw [List.map_append]
        simp only [List.map_cons, List.map_nil]
        rw [List.nodup_append]
        exact ⟨hn, List.nodup_singleton _, by simpa [List.Disjoint] using hnotmem⟩
  · intro s id name desc adm ts s2 h
    rw [teamUpdate] at h
    split at h
    · exact Except.noConfusion h
    · rename_i team2 h2
      injection h with h
      subst h
      exact updateMemberFirst_ids id name desc s.teamData team2 h2
  · intro s id adm ts s2 h
    rw [teamDelete] at h
    split at h
    · exact Except.noConfusion h
    · rename_i r team2 h2
      injection h with h
      subst h
      have hsub := removeMemberFirst_sublist id s.teamData r team2 h2
      exact ⟨hsub, fun hn => List.Nodup.sublist hsub hn⟩

/-- Roster states obtained by one concrete create and one concrete
update from the startup roster, used as witness inputs. -/
def c8Created : ServerState :=
  (teamCreate initialServerState "Maria" "" "adm" "ts").toOption.getD initialServerState

def c8Updated : ServerState :=
  (teamUpdate initialServerState "esther" "Maria" none "adm" "ts").toOption.getD
    initialServerState

/-- C8 (witness): the roster theorem evaluated on a concrete create and
a concrete update from the startup roster. -/
theorem C8_roster_witness :
    c8Created.teamData.map Member.id =
      initialServerState.teamData.map Member.id ++ [deriveTeamId "Maria"] ∧
    (c8Created.teamData.map Member.id).Nodup ∧
    c8Updated.teamData.map Member.id = initialServerState.teamData.map Member.id :=
  ⟨(C8_roster_id_derivation_and_uniqueness.1 initialServerState "Maria" "" "adm" "ts"
      c8Created (by decide)).1,
   (C8_roster_id_derivation_and_uniqueness.1 initialServerState "Maria" "" "adm" "ts"
      c8Created (by decide)).2.2 (by decide),
   C8_roster_id_derivation_and_uniqueness.2.1 initialServerState "esther" "Maria" none
      "adm" "ts" c8Updated (by decide)⟩

theorem findCred_eq_some_iff (name : String) (creds : List Credential) (c : Credential) :
    findCred name creds = some c ↔
      ∃ l1 l2, creds = l1 ++ c :: l2 ∧ credMatches name c = true ∧
        ∀ c2 ∈ l1, credMatches name c2 = false := by
  induction creds with
  | nil =>
    constructor
    · intro h; exact Option.noConfusion h
    · rintro ⟨l1, l2, h, -, -⟩
      cases l1 <;> simp at h
  | cons a rest ih =>
    rw [findCred]
    by_cases ha : credMatches name a = true
    · rw [if_pos ha]
      constructor
      · intro h
        injection h with h
        subst h
        exact ⟨[], rest, rfl, ha, by simp⟩
      · rintro ⟨l1, l2, heq, hc, hprev⟩
        cases l1 with
        | nil =>
          simp only [List.nil_append, List.cons.injEq] at heq
          rw [heq.1]
        | cons b l1t =>
          simp only [List.cons_append, List.cons.injEq] at heq
          have hb := hprev b (List.mem_cons_self b l1t)
          rw [← heq.1] at hb
          rw [hb] at ha
          exact absurd ha (by simp)
    · rw [if_neg ha]
      have ha2 : credMatches name a = false := Bool.eq_false_iff.mpr ha
      rw [ih]
      constructor
      · rintro ⟨l1, l2, heq, hc, hprev⟩
        refine ⟨a :: l1, l2, by rw [List.cons_append, heq], hc, ?_⟩
        intro c2 hc2
        rcases List.mem_cons.mp hc2 with h1 | h1
        · rw [h1]; exact ha2
        · exact hprev c2 h1
      · rintro ⟨l1, l2, heq, hc, hprev⟩
        cases l1 with
        | nil =>
          simp only [List.nil_append, List.cons.injEq] at heq
          rw [heq.1] at ha
          exact absurd hc ha
        | cons b l1t =>
          simp only [List.cons_append, List.cons.injEq] at heq
          refine ⟨l1t, l2, heq.2, hc, ?_⟩
          intro c2 hc2
          exact hprev c2 (List.mem_cons_of_mem b hc2)

/-- C9 (counterexample): the register handler accepts the name Ester
alongside the master Esther (its duplicate check does not drop the
letter h), but the login scan stops at the first credential matching the
name rule, and Ester matches Esther once every h is dropped from both —
so the stored credential Ester with its exact password abc cannot log
in: the supplied password is compared against Esther's instead. -/
theorem C9_counterexample_shadowed_credential :
    handleRegister defaultCredentials "Ester" "abc" =
      .ok [⟨"Esther", "1705", true⟩, ⟨"Ester", "abc", false⟩] ∧
    credMatches "Ester" ⟨"Ester", "abc", false⟩ = true ∧
    handleLogin [⟨"Esther", "1705", true⟩, ⟨"Ester", "abc", false⟩] "Ester" "abc" =
      .error .unauthorized := by
  exact ⟨by decide, by decide, by decide⟩

/-- C9 (amended): login walks the stored credentials in order and
authenticates against the first credential whose normalized name equals
the supplied normalized name directly or after dropping every letter h
from both sides; it succeeds exactly when that first matching credential
carries the supplied password.  A credential shadowed by an earlier
h-equivalent name therefore cannot be logged into, even with its exact
password. -/
theorem C9_login_first_match_rule (creds : List Credential) (name password : String)
    (c : Credential) (hn : name ≠ "") (hp : password ≠ "") :
    handleLogin creds name password = .ok c ↔
      (∃ l1 l2, creds = l1 ++ c :: l2 ∧ credMatches name c = true ∧
        (∀ c2 ∈ l1, credMatches name c2 = false)) ∧
      c.password = password := by
  rw [handleLogin, if_neg (by simp [hn, hp])]
  cases hf : findCred name creds with
  | none =>
    constructor
    · intro h; exact Except.noConfusion h
    · rintro ⟨hdec, hpw⟩
      rw [← findCred_eq_some_iff, hf] at hdec
      exact Option.noConfusion hdec
  | some c2 =>
    dsimp only
    by_cases hpw : c2.password = password
    · rw [if_pos hpw]
      constructor
      · intro h
        injection h with h
        subst h
        exact ⟨(findCred_eq_some_iff name creds c2).mp hf, hpw⟩
      · rintro ⟨hdec, hpw2⟩
        rw [← findCred_eq_some_iff, hf] at hdec
        injection hdec with hdec
        rw [hdec]
    · rw [if_neg hpw]
      constructor
      · intro h; exact Except.noConfusion h
      · rintro ⟨hdec, hpw2⟩
        rw [← findCred_eq_some_iff, hf] at hdec
        injection hdec with hdec
        subst hdec
        exact absurd hpw2 hpw

/-- C9 (witness): the spec's own example — Ester logs in as the master
Esther with Esther's password — via the first-match rule. -/
theorem C9_login_witness :
    handleLogin defaultCredentials "Ester" "1705" = .ok ⟨"Esther", "1705", true⟩ :=
  (C9_login_first_match_rule defaultCredentials "Ester" "1705" ⟨"Esther", "1705", true⟩
      (by decide) (by decide)).mpr
    ⟨⟨[], [], rfl, by decide, by simp⟩, rfl⟩

/-- States for the restore chain: the one-contributor state is closed
and then restored, giving a live store whose contributor records carry
no entries metadata. -/
def c10s2 : ServerState := (resetMonth c1State "adm" "t2" "2026-11").1

def c10s3 : ServerState :=
  (restoreMonth c10s2 "2026-10" "adm" "t3").toOption.getD initialServerState

/-- C10 (counterexample): after a concrete close and restore the
contributor Ana is rebuilt without entries and every edit and entries
listing fails with notFound — but, contrary to the claim's final clause,
a new deposit for Ana does not recreate her entries: the handler throws
a TypeError (killing the process in the real server), because it pushes
onto the absent entries property of an existing record. -/
theorem C10_counterexample_deposit_does_not_recreate_entries :
    restoreMonth c10s2 "2026-10" "adm" "t3" = .ok c10s3 ∧
    objGet c10s3.userData "Ana" = some ⟨["t1"], [.fin 5], none⟩ ∧
    editEntryTime c10s3 "Ana" 0 "t9" "adm" "t4" = .error .notFound ∧
    listEntries c10s3 "Ana" = .error .notFound ∧
    appendDeposit c10s3 (.fin 7) "t10" "Ana" "adm" "t5" = .error .typeError := by
  exact ⟨by decide, by decide, by decide, by decide, by decide⟩

/-- C10 (amended): after a successful restore every contributor record
in the store has no entries metadata, so every entry-time edit and every
per-contributor entries listing fails with notFound — for every
contributor and every index, including deposits that existed at close
time.  A new deposit does not recreate entries for a restored
contributor: it fails with a TypeError; entries only reappear for a
contributor whose record is first deleted and then recreated fresh by a
deposit. -/
theorem C10_restore_drops_entries (s : ServerState) (month adm ts : String)
    (s3 : ServerState) (hres : restoreMonth s month adm ts = .ok s3) :
    (∀ p ∈ s3.userData, p.2.entries = none) ∧
    (∀ u i t adm2 ts2, u ≠ "" → t ≠ "" →
      editEntryTime s3 u i t adm2 ts2 = .error .notFound) ∧
    (∀ u, u ≠ "" → listEntries s3 u = .error .notFound) ∧
    (∀ u d, u ≠ "" → objGet s3.userData u = some d →
      ∀ amt lbl adm2 ts2, isNaNb amt = false →
        appendDeposit s3 amt lbl u adm2 ts2 = .error .typeError) := by
  rw [restoreMonth] at hres
  split at hres
  · exact Except.noConfusion hres
  · split at hres
    · exact Except.noConfusion hres
    · rename_i snap hsnap
      injection hres with hres
      subst hres
      have hnone : ∀ p ∈ snap.users.map
          (fun p => (p.1, (⟨p.2.labels, p.2.values, none⟩ : UserRec))),
          p.2.entries = none := by
        intro p hp
        rcases List.mem_map.mp hp with ⟨q, hq, hpq⟩
        rw [← hpq]
      refine ⟨hnone, ?_, ?_, ?_⟩
      · intro u i t adm2 ts2 hu ht
        rw [editEntryTime, if_neg (by simp [hu, ht])]
        cases hg : objGet (snap.users.map
            (fun p => (p.1, (⟨p.2.labels, p.2.values, none⟩ : UserRec)))) u with
        | none => rfl
        | some d =>
          have hde := hnone (u, d) (objGet_mem hg)
          rcases d with ⟨dl, dv, de⟩
          cases hde
          rfl
      · intro u hu
        rw [listEntries, if_neg hu]
        cases hg : objGet (snap.users.map
            (fun p => (p.1, (⟨p.2.labels, p.2.values, none⟩ : UserRec)))) u with
        | none => rfl
        | some d =>
          have hde := hnone (u, d) (objGet_mem hg)
          rcases d with ⟨dl, dv, de⟩
          cases hde
          rfl
      · intro u d hu hg amt lbl adm2 ts2 hnan
        have hde := hnone (u, d) (objGet_mem hg)
        rcases d with ⟨dl, dv, de⟩
        cases hde
        rw [appendDeposit, if_neg (by simp [hnan]), if_neg hu, hg]

/-- C10 (witness): the restore theorem evaluated on the concrete chain;
edits and entry listings fail with notFound for a name and an index that
were never touched. -/
theorem C10_restore_witness :
    editEntryTime c10s3 "Bea" 1 "t9" "adm" "t6" = .error .notFound ∧
    listEntries c10s3 "Bea" = .error .notFound :=
  ⟨((C10_restore_drops_entries c10s2 "2026-10" "adm" "t3" c10s3 (by decide)).2.1)
      "Bea" 1 "t9" "adm" "t6" (by decide) (by decide),
   ((C10_restore_drops_entries c10s2 "2026-10" "adm" "t3" c10s3 (by decide)).2.2.1)
      "Bea" (by decide)⟩
